import Mathlib

/-!
Verification development for the TextComplexityAnalyzerCM library.

The Python sources are shallowly embedded in Lean.  Text is modelled as
`List Char`, tokens as records carrying the externally supplied annotations
(surface text, lemma, POS tag, morphology string, alphabetic flag, syllable
list), and every fallible operation (functions that `raise` in Python) is
modelled as `Except String`.  External collaborators (the spaCy annotation
engine, the pyphen hyphenator, Python's `statistics.pstdev`) appear as
function parameters; everything the repository itself computes is translated
from its source.
-/

/-- Boolean test mirroring the whitespace class Python's `str.strip()` and
`str.split()` use for ASCII text. -/
def pyIsSpace (c : Char) : Bool :=
  c = ' ' || c = '\t' || c = '\n' || c = '\r' || c = '\x0b' || c = '\x0c'

/-- Model of Python `str.lstrip()`: drop leading whitespace. -/
def pyLStrip (l : List Char) : List Char := l.dropWhile pyIsSpace

/-- Model of Python `str.rstrip()`: drop trailing whitespace. -/
def pyRStrip (l : List Char) : List Char := (l.reverse.dropWhile pyIsSpace).reverse

/-- Model of Python `str.strip()`: drop whitespace from both ends. -/
def pyStrip (l : List Char) : List Char := pyRStrip (pyLStrip l)

/-- Helper used by `splitNN`: prepend a character to the first piece of a
piece list (starting a fresh piece when there is none). -/
def consHead (c : Char) : List (List Char) → List (List Char)
  | [] => [[c]]
  | p :: ps => (c :: p) :: ps

/-- Model of Python `text.split('\n\n')`: split on every non-overlapping
occurrence of the two-newline delimiter, scanning left to right. -/
def splitNN : List Char → List (List Char)
  | [] => [[]]
  | [c] => [[c]]
  | c :: d :: rest =>
    if c = '\n' ∧ d = '\n'
    then [] :: splitNN rest
    else consHead c (splitNN (d :: rest))

/-- Joining a paragraph list back with the paragraph delimiter `"\n\n"`,
the inverse direction used by the round-trip property of the spec. -/
def joinNN : List (List Char) → List Char
  | [] => []
  | [p] => p
  | p :: ps => p ++ '\n' :: '\n' :: joinNN ps

/-- Boolean test for containing the delimiter `"\n\n"` as a substring. -/
def hasSepB : List Char → Bool
  | [] => false
  | c :: rest => (c = '\n' && rest.head? = some '\n') || hasSepB rest

/-- Embedding of `utils.split_text_into_paragraphs`: strip the text, split on
`'\n\n'`, keep the pieces of positive (pre-strip) length, and strip each kept
piece. -/
def split_text_into_paragraphs (text : List Char) : List (List Char) :=
  let text_aux := pyStrip text
  let paragraphs := splitNN text_aux
  (paragraphs.filter (fun p => 0 < p.length)).map pyStrip

/-- Token model: the annotations the external engine supplies for one token.
`alpha` is spaCy's `is_alpha`, `tag` its fine-grained tag (searched for
morphological substrings such as `PronType=Prs`), `syllables` the result of
the external hyphenation service (absent for words it was not applied to). -/
structure Token where
  text : String
  lemma_ : String
  pos : String
  tag : String
  alpha : Bool
  syllables : Option (List String) := none
deriving DecidableEq, Repr

/-- Embedding of `utils.is_word`: every character of the token is
alphabetic, as reported by the annotation engine. -/
def is_word (t : Token) : Bool := t.alpha

/-- Embedding of `utils.is_content_word`: an alphabetic token whose POS tag
is one of PROPN, NOUN, VERB, ADJ, ADV, AUX. -/
def is_content_word (t : Token) : Bool :=
  is_word t && (["PROPN", "NOUN", "VERB", "ADJ", "ADV", "AUX"].contains t.pos)

/-- Boolean substring test, modelling Python's `needle in haystack` for
strings. -/
def strContains (hay needle : String) : Bool :=
  hay.data.tails.any (fun suf => needle.data.isPrefixOf suf)

/-- Model of Python `str.lower()` on the character list of a string. -/
def pyToLower (s : List Char) : List Char := s.map Char.toLower

/-- Model of Python `str.split(' ')` on a character list: split on every
single space. -/
def splitSpace : List Char → List (List Char)
  | [] => [[]]
  | c :: rest => if c = ' ' then [] :: splitSpace rest else consHead c (splitSpace rest)

/-- Lexicon of the additive connectives tagger exactly as the source
constructs it: the Python list literal contains the adjacent string literals
`'igualmente' 'de igual modo'`, which the Python parser concatenates into a
single element; the embedding reproduces that concatenation with `++`. -/
def es_additive_connectives : List String :=
  ["asimismo", "igualmente" ++ "de igual modo", "de igual manera",
   "de igual forma", "del mismo modo", "de la misma manera",
   "de la misma forma", "en primer lugar", "en segundo lugar",
   "en tercer lugar", "en último lugar", "por su parte", "por otro lado",
   "además", "encima", "es más", "por añadidura", "incluso", "inclusive",
   "para colmo"]

/-- The additive connective lexicon as the specification enumerates it:
twenty-one distinct entries, with `igualmente` and `de igual modo` separate
members.  This definition follows the spec wording and exists only to be
compared against `es_additive_connectives`. -/
def spec_additive_connectives : List String :=
  ["asimismo", "igualmente", "de igual modo", "de igual manera",
   "de igual forma", "del mismo modo", "de la misma manera",
   "de la misma forma", "en primer lugar", "en segundo lugar",
   "en tercer lugar", "en último lugar", "por su parte", "por otro lado",
   "además", "encima", "es más", "por añadidura", "incluso", "inclusive",
   "para colmo"]

/-- Tokenization of a connective phrase for the spaCy PhraseMatcher: the
pattern `nlp(con)` splits these space-separated word phrases into words. -/
def phraseTokens (con : String) : List (List Char) := splitSpace con.data

/-- Case-insensitive match of a phrase pattern at position `i` of the
document's token texts, modelling `PhraseMatcher(vocab, attr='LOWER')`. -/
def phraseMatchAt (pat : List (List Char)) (docWords : List String) (i : Nat) : Bool :=
  (pat.map pyToLower).isPrefixOf ((docWords.drop i).map (fun w => pyToLower w.data))

/-- All `(start, end)` token ranges at which some phrase of the lexicon
matches the document, modelling the matcher call of the connective taggers. -/
def phraseMatcherMatches (lexicon : List String) (docWords : List String) : List (Nat × Nat) :=
  (List.range docWords.length).flatMap (fun i =>
    lexicon.filterMap (fun con =>
      let pat := phraseTokens con
      if phraseMatchAt pat docWords i then some (i, i + pat.length) else none))

/-- Span of tokens `[start, stop)`, the data `spacy.util.filter_spans`
works on (span.start and span.end of a spaCy Span). -/
structure TokenSpan where
  start : Nat
  stop : Nat
deriving DecidableEq, Repr

/-- Length of a token span in tokens. -/
def spanLen (s : TokenSpan) : Nat := s.stop - s.start

/-- Sort order used by `filter_spans`: Python sorts by the key
`(length, -start)` with `reverse=True`, i.e. longest first and, among equal
lengths, earliest start first. -/
def spanSortLE (a b : TokenSpan) : Bool :=
  decide (spanLen b < spanLen a) ||
    (decide (spanLen a = spanLen b) && decide (a.start ≤ b.start))

/-- Membership of token index `i` in the `seen_tokens` set, which always
equals the union of the token ranges of the spans kept so far. -/
def coveredTok (kept : List TokenSpan) (i : Nat) : Bool :=
  kept.any (fun s => decide (s.start ≤ i) && decide (i < s.stop))

/-- Greedy pass of `filter_spans`: walk the sorted candidates, keep a span
when neither its first nor its last token has been seen, and mark all its
tokens as seen. -/
def greedyFilterSpans : List TokenSpan → List TokenSpan → List TokenSpan
  | [], kept => kept
  | s :: rest, kept =>
    if coveredTok kept s.start = false ∧ coveredTok kept (s.stop - 1) = false
    then greedyFilterSpans rest (kept ++ [s])
    else greedyFilterSpans rest kept

/-- Embedding of `spacy.util.filter_spans`, the overlap-resolution rule the
taggers apply before exposing their spans: sort candidates longest first
(ties by earliest start), keep greedily, and return the kept spans sorted by
start. -/
def filter_spans (spans : List TokenSpan) : List TokenSpan :=
  (greedyFilterSpans (spans.mergeSort spanSortLE) []).mergeSort
    (fun a b => decide (a.start ≤ b.start))

/-- Intersection of the token ranges of two spans. -/
def spansIntersect (a b : TokenSpan) : Prop :=
  a.start < b.stop ∧ b.start < a.stop

/-- Full additive-connectives tagging of a document, given the document's
token texts: run the phrase matcher over the source lexicon, then resolve
overlaps with `filter_spans` exactly as `AdditiveConnectivesTagger.__call__`
does. -/
def additive_connectives_tagger_spans (docWords : List String) : List TokenSpan :=
  filter_spans ((phraseMatcherMatches es_additive_connectives docWords).map
    (fun m => ⟨m.1, m.2⟩))

/-- Embedding of `analyze_noun_overlap`: 1 when some alphabetic NOUN token
of the current sentence also occurs (lowercased) as an alphabetic NOUN of
the previous sentence, else 0. -/
def analyze_noun_overlap (prev cur : List Token) : ℚ :=
  let prevNouns := (prev.filter (fun t => is_word t && t.pos == "NOUN")).map
    (fun t => pyToLower t.text.data)
  if cur.any (fun t => is_word t && t.pos == "NOUN" &&
      prevNouns.contains (pyToLower t.text.data)) then 1 else 0

/-- Embedding of `analyze_argument_overlap`: 1 when a NOUN lemma of the
current sentence occurs among the previous sentence's NOUN lemmas, or a
personal pronoun surface form recurs; else 0. -/
def analyze_argument_overlap (prev cur : List Token) : ℚ :=
  let prevNounLemmas := (prev.filter (fun t => is_word t && t.pos == "NOUN")).map
    (fun t => pyToLower t.lemma_.data)
  let prevPersPron := (prev.filter (fun t => is_word t && strContains t.tag "PronType=Prs")).map
    (fun t => pyToLower t.text.data)
  if cur.any (fun t =>
      (is_word t && t.pos == "NOUN" && prevNounLemmas.contains (pyToLower t.lemma_.data)) ||
      (is_word t && strContains t.tag "PronType=Prs" &&
        prevPersPron.contains (pyToLower t.text.data)))
  then 1 else 0

/-- Embedding of `analyze_stem_overlap`: 1 when a NOUN or PROPN lemma of the
current sentence occurs among the previous sentence's content-word lemmas,
else 0. -/
def analyze_stem_overlap (prev cur : List Token) : ℚ :=
  let prevStems := (prev.filter is_content_word).map (fun t => pyToLower t.lemma_.data)
  if cur.any (fun t => is_word t && (t.pos == "NOUN" || t.pos == "PROPN") &&
      prevStems.contains (pyToLower t.lemma_.data)) then 1 else 0

/-- Embedding of `analyze_content_word_overlap`: twice the number of current
content words whose lowercased surface occurs among the previous sentence's
content words, divided by the total content-word count of both sentences;
0 when that total is 0. -/
def analyze_content_word_overlap (prev cur : List Token) : ℚ :=
  let total_tokens := (prev.filter is_content_word).length +
    (cur.filter is_content_word).length
  if total_tokens = 0 then 0
  else
    let prevContent := (prev.filter is_content_word).map (fun t => pyToLower t.text.data)
    let matchSum := 2 * cur.countP (fun t => is_content_word t &&
      prevContent.contains (pyToLower t.text.data))
    (matchSum : ℚ) / (total_tokens : ℚ)

/-- Embedding of `analyze_anaphore_overlap`: 1 when a pronoun surface form
of the current sentence occurs among the previous sentence's pronouns,
else 0. -/
def analyze_anaphore_overlap (prev cur : List Token) : ℚ :=
  let prevPronouns := (prev.filter (fun t => is_word t && t.pos == "PRON")).map
    (fun t => pyToLower t.text.data)
  if cur.any (fun t => is_word t && t.pos == "PRON" &&
      prevPronouns.contains (pyToLower t.text.data)) then 1 else 0

/-- Modelled from the spec: the class `StatisticsResults` lives in
`utils/statistics_results.py`, which is not among the provided source files
(only its importers are).  The spec describes a StatisticsResult as a pair
of a mean and a population standard deviation, "both optional/omitted when
the sample is empty"; `StatisticsResults()` is the empty container the
callers build before filling either field. -/
structure StatisticsResults where
  mean : Option ℚ := none
  std : Option ℚ := none
deriving DecidableEq, Repr

/-- Model of Python `statistics.mean` on an exact sample (callers guard the
empty sample, where the Python function would raise). -/
def pymean (l : List ℚ) : ℚ := l.sum / (l.length : ℚ)

/-- Adjacent sentence pairs, modelling the `tee`/`zip` iterator pairing each
sentence with its successor across the whole document. -/
def adjacentPairs {α : Type} (l : List α) : List (α × α) := l.zip l.tail

/-- All unordered sentence pairs in `itertools.combinations` order. -/
def allPairs {α : Type} : List α → List (α × α)
  | [] => []
  | x :: rest => rest.map (fun y => (x, y)) ++ allPairs rest

/-- Embedding of
`ReferentialCohesionIndices._calculate_overlap_for_adjacent_sentences`:
validate the text and the statistic type, evaluate the analyzer on every
adjacent sentence pair, and return the empty `StatisticsResults` when no
pair exists, otherwise the requested mean and/or population deviation.
The external `statistics.pstdev` is a parameter. -/
def _calculate_overlap_for_adjacent_sentences (pstdev : List ℚ → ℚ)
    (sentence_analyzer : List Token → List Token → ℚ)
    (text : List Char) (sentences : List (List Token))
    (statistic_type : String) : Except String StatisticsResults :=
  if text.length = 0 then .error "The text is empty."
  else if ¬ (["mean", "std", "all"].contains statistic_type) then
    .error "statistic_type can only take mean, std or all."
  else
    let values := (adjacentPairs sentences).map (fun pc => sentence_analyzer pc.1 pc.2)
    if values.length = 0 then .ok {}
    else .ok
      { mean := if ["mean", "all"].contains statistic_type then some (pymean values) else none
        std := if ["std", "all"].contains statistic_type then some (pstdev values) else none }

/-- Embedding of
`ReferentialCohesionIndices._calculate_overlap_for_all_sentences`: like the
adjacent variant but over every sentence combination. -/
def _calculate_overlap_for_all_sentences (pstdev : List ℚ → ℚ)
    (sentence_analyzer : List Token → List Token → ℚ)
    (text : List Char) (sentences : List (List Token))
    (statistic_type : String) : Except String StatisticsResults :=
  if text.length = 0 then .error "The text is empty."
  else if ¬ (["mean", "std", "all"].contains statistic_type) then
    .error "statistic_type can only take mean, std or all."
  else
    let values := (allPairs sentences).map (fun pc => sentence_analyzer pc.1 pc.2)
    if values.length = 0 then .ok {}
    else .ok
      { mean := if ["mean", "all"].contains statistic_type then some (pymean values) else none
        std := if ["std", "all"].contains statistic_type then some (pstdev values) else none }

/-- Embedding of `get_noun_overlap_adjacent_sentences` (CRFNO1). -/
def get_noun_overlap_adjacent_sentences (pstdev : List ℚ → ℚ)
    (text : List Char) (sentences : List (List Token)) : Except String (Option ℚ) :=
  (_calculate_overlap_for_adjacent_sentences pstdev analyze_noun_overlap
    text sentences "mean").map (fun r => r.mean)

/-- Embedding of `get_noun_overlap_all_sentences` (CRFNOa). -/
def get_noun_overlap_all_sentences (pstdev : List ℚ → ℚ)
    (text : List Char) (sentences : List (List Token)) : Except String (Option ℚ) :=
  (_calculate_overlap_for_all_sentences pstdev analyze_noun_overlap
    text sentences "mean").map (fun r => r.mean)

/-- Embedding of `get_argument_overlap_adjacent_sentences` (CRFAO1). -/
def get_argument_overlap_adjacent_sentences (pstdev : List ℚ → ℚ)
    (text : List Char) (sentences : List (List Token)) : Except String (Option ℚ) :=
  (_calculate_overlap_for_adjacent_sentences pstdev analyze_argument_overlap
    text sentences "mean").map (fun r => r.mean)

/-- Embedding of `get_argument_overlap_all_sentences` (CRFAOa). -/
def get_argument_overlap_all_sentences (pstdev : List ℚ → ℚ)
    (text : List Char) (sentences : List (List Token)) : Except String (Option ℚ) :=
  (_calculate_overlap_for_all_sentences pstdev analyze_argument_overlap
    text sentences "mean").map (fun r => r.mean)

/-- Embedding of `get_stem_overlap_adjacent_sentences` (CRFSO1). -/
def get_stem_overlap_adjacent_sentences (pstdev : List ℚ → ℚ)
    (text : List Char) (sentences : List (List Token)) : Except String (Option ℚ) :=
  (_calculate_overlap_for_adjacent_sentences pstdev analyze_stem_overlap
    text sentences "mean").map (fun r => r.mean)

/-- Embedding of `get_stem_overlap_all_sentences` (CRFSOa). -/
def get_stem_overlap_all_sentences (pstdev : List ℚ → ℚ)
    (text : List Char) (sentences : List (List Token)) : Except String (Option ℚ) :=
  (_calculate_overlap_for_all_sentences pstdev analyze_stem_overlap
    text sentences "mean").map (fun r => r.mean)

/-- Embedding of `get_content_word_overlap_adjacent_sentences`
(CRFCWO1 and CRFCWO1d). -/
def get_content_word_overlap_adjacent_sentences (pstdev : List ℚ → ℚ)
    (text : List Char) (sentences : List (List Token)) : Except String StatisticsResults :=
  _calculate_overlap_for_adjacent_sentences pstdev analyze_content_word_overlap
    text sentences "all"

/-- Embedding of `get_content_word_overlap_all_sentences`
(CRFCWOa and CRFCWOad). -/
def get_content_word_overlap_all_sentences (pstdev : List ℚ → ℚ)
    (text : List Char) (sentences : List (List Token)) : Except String StatisticsResults :=
  _calculate_overlap_for_all_sentences pstdev analyze_content_word_overlap
    text sentences "all"

/-- Embedding of `get_anaphore_overlap_adjacent_sentences` (CRFANP1). -/
def get_anaphore_overlap_adjacent_sentences (pstdev : List ℚ → ℚ)
    (text : List Char) (sentences : List (List Token)) : Except String (Option ℚ) :=
  (_calculate_overlap_for_adjacent_sentences pstdev analyze_anaphore_overlap
    text sentences "all").map (fun r => r.mean)

/-- Embedding of `get_anaphore_overlap_all_sentences` (CRFANPa). -/
def get_anaphore_overlap_all_sentences (pstdev : List ℚ → ℚ)
    (text : List Char) (sentences : List (List Token)) : Except String (Option ℚ) :=
  (_calculate_overlap_for_all_sentences pstdev analyze_anaphore_overlap
    text sentences "all").map (fun r => r.mean)

/-- The twelve pairwise referential cohesion indices, as the dictionary
built by `calculate_referential_cohesion_indices_for_one_text` holds them. -/
structure ReferentialCohesionIndicesValues where
  CRFNO1 : Option ℚ
  CRFNOa : Option ℚ
  CRFAO1 : Option ℚ
  CRFAOa : Option ℚ
  CRFSO1 : Option ℚ
  CRFSOa : Option ℚ
  CRFCWO1 : Option ℚ
  CRFCWO1d : Option ℚ
  CRFCWOa : Option ℚ
  CRFCWOad : Option ℚ
  CRFANP1 : Option ℚ
  CRFANPa : Option ℚ
deriving DecidableEq, Repr

/-- Embedding of
`TextComplexityAnalyzer.calculate_referential_cohesion_indices_for_one_text`:
fill the index dictionary entry by entry in source order. -/
def calculate_referential_cohesion_indices_for_one_text (pstdev : List ℚ → ℚ)
    (text : List Char) (sentences : List (List Token)) :
    Except String ReferentialCohesionIndicesValues := do
  let crfno1 ← get_noun_overlap_adjacent_sentences pstdev text sentences
  let crfnoa ← get_noun_overlap_all_sentences pstdev text sentences
  let crfao1 ← get_argument_overlap_adjacent_sentences pstdev text sentences
  let crfaoa ← get_argument_overlap_all_sentences pstdev text sentences
  let crfso1 ← get_stem_overlap_adjacent_sentences pstdev text sentences
  let crfsoa ← get_stem_overlap_all_sentences pstdev text sentences
  let cwoAdjacent ← get_content_word_overlap_adjacent_sentences pstdev text sentences
  let cwoAll ← get_content_word_overlap_all_sentences pstdev text sentences
  let crfanp1 ← get_anaphore_overlap_adjacent_sentences pstdev text sentences
  let crfanpa ← get_anaphore_overlap_all_sentences pstdev text sentences
  return { CRFNO1 := crfno1, CRFNOa := crfnoa, CRFAO1 := crfao1, CRFAOa := crfaoa
           CRFSO1 := crfso1, CRFSOa := crfsoa
           CRFCWO1 := cwoAdjacent.mean, CRFCWO1d := cwoAdjacent.std
           CRFCWOa := cwoAll.mean, CRFCWOad := cwoAll.std
           CRFANP1 := crfanp1, CRFANPa := crfanpa }

/-- Embedding of the worker-count validation guarding
`TextComplexityAnalyzer.calculate_all_indices_for_one_text`:
`workers == 0 or workers < -1` raises the usage error. -/
def calculate_all_indices_workers_rejected (workers : Int) : Bool :=
  workers == 0 || decide (workers < -1)

/-- Embedding of the worker-count validation guarding
`TextComplexityAnalyzer.predict_text_category`, the first check of that
method: `workers == 0 or workers < -1` raises the usage error. -/
def predict_text_category_workers_rejected (workers : Int) : Bool :=
  workers == 0 || decide (workers < -1)

/-- Lowercased alphabetic word occurrences LDTTRa ranges over: the `tokens`
list comprehension of `get_type_token_ratio_between_all_words`. -/
def ldttra_tokens (tokenize : List Char → List Token) (text : List Char) : List (List Char) :=
  ((split_text_into_paragraphs text).flatMap tokenize).filterMap
    (fun t => if is_word t then some (pyToLower t.text.data) else none)

/-- Lowercased content-word occurrences LDTTRcw ranges over: the `tokens`
list comprehension of `get_type_token_ratio_of_content_words`. -/
def ldttrcw_tokens (tokenize : List Char → List Token) (text : List Char) : List (List Char) :=
  ((split_text_into_paragraphs text).flatMap tokenize).filterMap
    (fun t => if is_content_word t then some (pyToLower t.text.data) else none)

/-- Embedding of
`LexicalDiversityIndices.get_type_token_ratio_between_all_words` (LDTTRa):
validate, tokenize every paragraph through the external engine, keep the
lowercased alphabetic words, and divide distinct forms by tokens (0 for an
empty token list).  `Python len(set(xs))` is the deduplicated length. -/
def get_type_token_ratio_between_all_words (tokenize : List Char → List Token)
    (text : List Char) (workers : Int) : Except String ℚ :=
  if text.length = 0 then .error "The text is empty."
  else if workers == 0 || decide (workers < -1) then
    .error "Workers must be -1 or any positive number greater than 0"
  else
    let tokens := ldttra_tokens tokenize text
    .ok (if tokens.length = 0 then 0 else (tokens.dedup.length : ℚ) / (tokens.length : ℚ))

/-- Embedding of
`LexicalDiversityIndices.get_type_token_ratio_of_content_words` (LDTTRcw):
the same ratio over content words. -/
def get_type_token_ratio_of_content_words (tokenize : List Char → List Token)
    (text : List Char) (workers : Int) : Except String ℚ :=
  if text.length = 0 then .error "The text is empty."
  else if workers == 0 || decide (workers < -1) then
    .error "Workers must be -1 or any positive number greater than 0"
  else
    let tokens := ldttrcw_tokens tokenize text
    .ok (if tokens.length = 0 then 0 else (tokens.dedup.length : ℚ) / (tokens.length : ℚ))

/-- Embedding of `DescriptiveIndices.get_paragraph_count_from_text`
(DESPC): the length of the paragraph split, after the emptiness guard. -/
def get_paragraph_count_from_text (text : List Char) : Except String Nat :=
  if text.length = 0 then .error "The text is empty."
  else .ok (split_text_into_paragraphs text).length

/-- Embedding of `DescriptiveIndices.get_sentence_count_from_text` (DESSC):
sum over paragraphs of the external sentencizer's sentence count. -/
def get_sentence_count_from_text (sentencize : List Char → Nat)
    (text : List Char) (workers : Int) : Except String Nat :=
  if text.length = 0 then .error "The text is empty."
  else if workers == 0 || decide (workers < -1) then
    .error "Workers must be -1 or any positive number greater than 0"
  else .ok ((split_text_into_paragraphs text).map sentencize).sum

/-- Embedding of `DescriptiveIndices.get_word_count_from_text` (DESWC):
count the alphabetic tokens of every paragraph. -/
def get_word_count_from_text (tokenize : List Char → List Token)
    (text : List Char) (workers : Int) : Except String Nat :=
  if text.length = 0 then .error "The text is empty."
  else if workers == 0 || decide (workers < -1) then
    .error "Workers must be -1 or any positive number greater than 0"
  else .ok (((split_text_into_paragraphs text).flatMap tokenize).countP is_word)

/-- Sentence of the staged pipeline model: the parser's sentence span with
its raw text and its tokens. -/
structure PSentence where
  text : String
  tokens : List Token
deriving Repr

/-- Paragraph of the staged pipeline model: the sentences the parser found
inside it. -/
structure PParagraph where
  sentences : List PSentence
deriving Repr

/-- Document of the staged pipeline model: the raw text and the paragraph
structure the Paragraphizer pipe produced. -/
structure PDoc where
  text : String
  paragraphs : List PParagraph
deriving Repr

/-- Alphabetic words of one sentence, as `alphanumeric_word_identifier`
stores them in `sent._.alpha_words`. -/
def sentence_alpha_words (s : PSentence) : List Token := s.tokens.filter is_word

/-- Non-empty sentences of a paragraph, as the Paragraphizer computes them:
sentences whose stripped text has positive length. -/
def paragraph_non_empty_sentences (p : PParagraph) : List PSentence :=
  p.sentences.filter (fun s => 0 < (pyStrip s.text.data).length)

/-- All parser sentences of the document (`doc.sents`). -/
def doc_sentences (doc : PDoc) : List PSentence :=
  doc.paragraphs.flatMap (fun p => p.sentences)

/-- Embedding of `utils.split_doc_into_sentences`: the document sentences
whose stripped text is non-empty. -/
def split_doc_into_sentences (doc : PDoc) : List PSentence :=
  (doc_sentences doc).filter (fun s => 0 < (pyStrip s.text.data).length)

/-- Alphabetic words of the whole document in order, as the
`doc._.alpha_words` getter yields them (per paragraph, per non-empty
sentence). -/
def doc_alpha_words (doc : PDoc) : List Token :=
  doc.paragraphs.flatMap (fun p =>
    (paragraph_non_empty_sentences p).flatMap sentence_alpha_words)

/-- Embedding of `DescriptiveIndices._get_mean_std_of_metric` of the staged
pipeline: guard the text and the statistic type, then take the mean and/or
population standard deviation of the counter values; Python's statistics
functions raise on an empty sample. -/
def _get_mean_std_of_metric (pstdev : List ℚ → ℚ) (docTextLength : Nat)
    (counter : List ℚ) (statistic_type : String) : Except String StatisticsResults :=
  if docTextLength = 0 then .error "The text is empty."
  else if ¬ (["mean", "std", "all"].contains statistic_type) then
    .error "statistic_type can only take mean, std or all."
  else if counter.length = 0 then .error "StatisticsError: no data points"
  else .ok
    { std := if ["std", "all"].contains statistic_type then some (pstdev counter) else none
      mean := if ["mean", "all"].contains statistic_type then some (pymean counter) else none }

/-- The descriptive index dictionary of the staged pipeline. -/
structure DescriptiveIndicesValues where
  DESPC : Nat
  DESSC : Nat
  DESWC : Nat
  DESPL : Option ℚ
  DESPLd : Option ℚ
  DESSL : Option ℚ
  DESSLd : Option ℚ
  DESWLlt : Option ℚ
  DESWLltd : Option ℚ
  DESWLsy : Option ℚ
  DESWLsyd : Option ℚ
deriving DecidableEq, Repr

/-- Embedding of the descriptive indices pipe (`DescriptiveIndices.__call__`
of the staged pipeline): counts from the Paragraphizer and word identifier,
then mean/std of sentences per paragraph, words per sentence, letters per
word and syllables per word (the latter over alphabetic words the external
hyphenator annotated). -/
def descriptive_indices_pipe (pstdev : List ℚ → ℚ) (doc : PDoc) :
    Except String DescriptiveIndicesValues :=
  if doc.text.length = 0 then .error "The text is empty."
  else do
    let sentences_with_content := split_doc_into_sentences doc
    let paraMetrics ← _get_mean_std_of_metric pstdev doc.text.length
      (doc.paragraphs.map (fun p => ((paragraph_non_empty_sentences p).length : ℚ))) "all"
    let sentMetrics ← _get_mean_std_of_metric pstdev doc.text.length
      (sentences_with_content.map (fun s => ((sentence_alpha_words s).length : ℚ))) "all"
    let letterMetrics ← _get_mean_std_of_metric pstdev doc.text.length
      ((doc_alpha_words doc).map (fun t => (t.text.length : ℚ))) "all"
    let syllableMetrics ← _get_mean_std_of_metric pstdev doc.text.length
      (((doc_alpha_words doc).filter (fun t => t.syllables.isSome)).map
        (fun t => ((t.syllables.getD []).length : ℚ))) "all"
    return { DESPC := doc.paragraphs.length
             DESSC := (doc.paragraphs.map (fun p => (paragraph_non_empty_sentences p).length)).sum
             DESWC := (doc_alpha_words doc).length
             DESPL := paraMetrics.mean, DESPLd := paraMetrics.std
             DESSL := sentMetrics.mean, DESSLd := sentMetrics.std
             DESWLlt := letterMetrics.mean, DESWLltd := letterMetrics.std
             DESWLsy := syllableMetrics.mean, DESWLsyd := syllableMetrics.std }

/-- Embedding of the readability indices pipe: after the emptiness guard,
RDFHGL is `206.84 - 0.6 * DESWLsy - 1.02 * DESSL` read from the descriptive
dictionary of the same document (`__calculate_fernandez_huertas_grade_level`). -/
def readability_indices_pipe (docTextLength : Nat)
    (descriptive : DescriptiveIndicesValues) : Except String ℚ :=
  if docTextLength = 0 then .error "The text is empty."
  else match descriptive.DESWLsy, descriptive.DESSL with
    | some deswlsy, some dessl => .ok (206.84 - 0.6 * deswlsy - 1.02 * dessl)
    | _, _ => .error "TypeError: descriptive index missing"

/-- Mean syllable count per hyphenated alphabetic word of a document (the
sample the descriptive pipe feeds `statistics.mean` for DESWLsy). -/
def meanSyllablesPerWord (doc : PDoc) : ℚ :=
  pymean (((doc_alpha_words doc).filter (fun t => t.syllables.isSome)).map
    (fun t => ((t.syllables.getD []).length : ℚ)))

/-- Mean alphabetic word count per content sentence of a document (the
sample the descriptive pipe feeds `statistics.mean` for DESSL). -/
def meanWordsPerSentence (doc : PDoc) : ℚ :=
  pymean ((split_doc_into_sentences doc).map
    (fun s => ((sentence_alpha_words s).length : ℚ)))


/-- A one-token test sentence used by concrete witnesses: an alphabetic
Spanish noun as the annotation engine would deliver it. -/
def sampleNoun : Token :=
  { text := "perro", lemma_ := "perro", pos := "NOUN", tag := "NOUN", alpha := true,
    syllables := some ["pe", "rro"] }

/-- A one-sentence, one-word document used by concrete witnesses. -/
def sampleDoc : PDoc :=
  { text := "ab", paragraphs := [{ sentences := [{ text := "ab", tokens := [sampleNoun] }] }] }

/-- The descriptive index values of `sampleDoc` under the zero standard
deviation oracle, used by the readability witness. -/
def sampleDescriptive : DescriptiveIndicesValues :=
  { DESPC := 1, DESSC := 1, DESWC := 1
    DESPL := some (pymean [1]), DESPLd := some 0
    DESSL := some (pymean [1]), DESSLd := some 0
    DESWLlt := some (pymean [5]), DESWLltd := some 0
    DESWLsy := some (pymean [2]), DESWLsyd := some 0 }

/-- C4: for every integer workers argument, both public entry points reject
with the usage error exactly when workers is 0 or a negative number other
than -1; -1 and every positive integer pass validation. -/
theorem workers_validation_rejects_iff (workers : Int) :
    (calculate_all_indices_workers_rejected workers = true ↔
      (workers = 0 ∨ (workers < 0 ∧ workers ≠ -1))) ∧
    (predict_text_category_workers_rejected workers = true ↔
      (workers = 0 ∨ (workers < 0 ∧ workers ≠ -1))) := by
  unfold calculate_all_indices_workers_rejected predict_text_category_workers_rejected
  constructor <;>
    · simp only [Bool.or_eq_true, beq_iff_eq, decide_eq_true_eq]
      omega

/-- C1 (code evaluated at the failing input): the source lexicon of the
additive connectives tagger misses the comma between `'igualmente'` and
`'de igual modo'`, so Python concatenates them into the single entry
`igualmentede igual modo`; consequently neither `igualmente` nor
`de igual modo` is a lexicon member — both are distinct members of the
spec's lexicon — and a document consisting of the standalone word
`igualmente` receives no additive connective span at all. -/
theorem additive_connectives_igualmente_untagged :
    additive_connectives_tagger_spans ["igualmente"] = [] ∧
    phraseMatcherMatches es_additive_connectives ["igualmente"] = [] ∧
    "igualmente" ∉ es_additive_connectives ∧
    "de igual modo" ∉ es_additive_connectives ∧
    ("igualmente" ++ "de igual modo") ∈ es_additive_connectives ∧
    "igualmente" ∈ spec_additive_connectives ∧
    "de igual modo" ∈ spec_additive_connectives ∧
    es_additive_connectives ≠ spec_additive_connectives := by
  have hmatch : phraseMatcherMatches es_additive_connectives ["igualmente"] = [] := by decide
  refine ⟨?_, hmatch, by decide, by decide, by decide, by decide, by decide, by decide⟩
  rw [additive_connectives_tagger_spans, hmatch]
  show filter_spans [] = []
  have h1 : List.mergeSort ([] : List TokenSpan) spanSortLE = [] := List.mergeSort_nil
  rw [filter_spans, h1]
  show List.mergeSort ([] : List TokenSpan) _ = []
  exact List.mergeSort_nil

/-- C2: when the text is non-empty but fewer than two sentences were found,
every pairwise referential cohesion index is surfaced as the missing value
`none` (the empty `StatisticsResults`), not as 0, and no division by zero
occurs: the computation succeeds. -/
theorem referential_cohesion_indices_undefined_below_two_sentences
    (pstdev : List ℚ → ℚ) (text : List Char) (sentences : List (List Token))
    (htext : text.length ≠ 0) (hsent : sentences.length < 2) :
    calculate_referential_cohesion_indices_for_one_text pstdev text sentences =
      .ok { CRFNO1 := none, CRFNOa := none, CRFAO1 := none, CRFAOa := none,
            CRFSO1 := none, CRFSOa := none, CRFCWO1 := none, CRFCWO1d := none,
            CRFCWOa := none, CRFCWOad := none, CRFANP1 := none, CRFANPa := none } := by
  have hadj : adjacentPairs sentences = [] := by
    cases sentences with
    | nil => rfl
    | cons a tl =>
      cases tl with
      | nil => rfl
      | cons b tl2 =>
        simp only [List.length_cons] at hsent
        omega
  have hall : allPairs sentences = [] := by
    cases sentences with
    | nil => rfl
    | cons a tl =>
      cases tl with
      | nil => rfl
      | cons b tl2 =>
        simp only [List.length_cons] at hsent
        omega
  simp only [calculate_referential_cohesion_indices_for_one_text,
        get_noun_overlap_adjacent_sentences, get_noun_overlap_all_sentences,
        get_argument_overlap_adjacent_sentences, get_argument_overlap_all_sentences,
        get_stem_overlap_adjacent_sentences, get_stem_overlap_all_sentences,
        get_content_word_overlap_adjacent_sentences, get_content_word_overlap_all_sentences,
        get_anaphore_overlap_adjacent_sentences, get_anaphore_overlap_all_sentences,
        _calculate_overlap_for_adjacent_sentences, _calculate_overlap_for_all_sentences,
        hadj, hall, htext, Except.map, if_neg]
  rfl

/-- Witness for C2 at a concrete input: a one-character text with zero
parsed sentences. -/
theorem referential_cohesion_indices_undefined_below_two_sentences_witness :
    (['a'] : List Char).length ≠ 0 ∧ ([] : List (List Token)).length < 2 ∧
    calculate_referential_cohesion_indices_for_one_text (fun _ => 0) ['a'] [] =
      .ok { CRFNO1 := none, CRFNOa := none, CRFAO1 := none, CRFAOa := none,
            CRFSO1 := none, CRFSOa := none, CRFCWO1 := none, CRFCWO1d := none,
            CRFCWOa := none, CRFCWOad := none, CRFANP1 := none, CRFANPa := none } :=
  ⟨by decide, by decide,
    referential_cohesion_indices_undefined_below_two_sentences (fun _ => 0) ['a'] []
      (by decide) (by decide)⟩

/-- C8: on the empty input text, each counted analysis operation — the
paragraph, sentence and word counters, both type-token-ratio reducers, the
pairwise referential cohesion calculators and the descriptive and
readability pipes — fails with the empty-text error instead of returning a
value. -/
theorem empty_text_operations_raise_empty_input
    (tokenize : List Char → List Token) (sentencize : List Char → Nat)
    (pstdev : List ℚ → ℚ) (analyzer : List Token → List Token → ℚ)
    (workers : Int) (sentences : List (List Token)) (stat : String)
    (paras : List PParagraph) (d : DescriptiveIndicesValues) :
    get_paragraph_count_from_text [] = .error "The text is empty." ∧
    get_sentence_count_from_text sentencize [] workers = .error "The text is empty." ∧
    get_word_count_from_text tokenize [] workers = .error "The text is empty." ∧
    get_type_token_ratio_between_all_words tokenize [] workers = .error "The text is empty." ∧
    get_type_token_ratio_of_content_words tokenize [] workers = .error "The text is empty." ∧
    _calculate_overlap_for_adjacent_sentences pstdev analyzer [] sentences stat =
      .error "The text is empty." ∧
    _calculate_overlap_for_all_sentences pstdev analyzer [] sentences stat =
      .error "The text is empty." ∧
    descriptive_indices_pipe pstdev { text := "", paragraphs := paras } =
      .error "The text is empty." ∧
    readability_indices_pipe 0 d = .error "The text is empty." :=
  ⟨rfl, rfl, rfl, rfl, rfl, rfl, rfl, rfl, rfl⟩

/-- Helper: stripping a list made of whitespace only leaves nothing. -/
theorem pyStrip_eq_nil_of_all_space {l : List Char}
    (h : ∀ c ∈ l, pyIsSpace c = true) : pyStrip l = [] := by
  unfold pyStrip pyLStrip pyRStrip
  rw [List.dropWhile_eq_nil_iff.mpr h]
  rfl

/-- C10: a non-empty text consisting exclusively of whitespace passes the
length-0 emptiness check, raises no error, and yields paragraph count 0,
because splitting strips the text to nothing and discards empty pieces. -/
theorem whitespace_only_text_paragraph_count_zero (text : List Char)
    (hne : text ≠ []) (hws : ∀ c ∈ text, pyIsSpace c = true) :
    get_paragraph_count_from_text text = .ok 0 := by
  have hlen : ¬ text.length = 0 := by simpa [List.length_eq_zero] using hne
  have hstrip : pyStrip text = [] := pyStrip_eq_nil_of_all_space hws
  unfold get_paragraph_count_from_text split_text_into_paragraphs
  rw [if_neg hlen, hstrip]
  rfl

/-- Witness for C10 at a concrete input: the one-space text. -/
theorem whitespace_only_text_paragraph_count_zero_witness :
    ([' '] : List Char) ≠ [] ∧ (∀ c ∈ ([' '] : List Char), pyIsSpace c = true) ∧
    get_paragraph_count_from_text [' '] = .ok 0 :=
  ⟨by decide, by decide,
    whitespace_only_text_paragraph_count_zero [' '] (by decide) (by decide)⟩

/-- Helper: the value the type-token-ratio reducers compute satisfies the
LDTTR contract — defined 0 on an empty sample, distinct-over-total
otherwise, and always inside the unit interval. -/
theorem ttr_value_spec (tokens : List (List Char)) (v : ℚ)
    (hv : v = if tokens.length = 0 then 0
              else (tokens.dedup.length : ℚ) / (tokens.length : ℚ)) :
    (tokens.length = 0 → v = 0) ∧
    (0 < tokens.length →
      v = (tokens.dedup.length : ℚ) / (tokens.length : ℚ)) ∧
    0 ≤ v ∧ v ≤ 1 := by
  refine ⟨fun h0 => by rw [hv, if_pos h0], fun hpos => by rw [hv, if_neg (by omega)], ?_⟩
  by_cases h0 : tokens.length = 0
  · rw [hv, if_pos h0]
    norm_num
  · rw [hv, if_neg h0]
    have hle : tokens.dedup.length ≤ tokens.length := tokens.dedup_sublist.length_le
    have hpos : (0 : ℚ) < (tokens.length : ℚ) := by
      exact_mod_cast Nat.pos_of_ne_zero h0
    constructor
    · apply div_nonneg (by positivity) (le_of_lt hpos)
    · rw [div_le_one hpos]
      exact_mod_cast hle

/-- C6: whenever LDTTRa is returned it equals the number of distinct
lowercased word forms over the word-token count for a positive count and a
defined 0 for a zero count; the analogous statement holds for LDTTRcw over
content words; both values lie in [0, 1]. -/
theorem type_token_ratio_contract (tokenize : List Char → List Token)
    (text : List Char) (workers : Int) :
    (∀ v : ℚ, get_type_token_ratio_between_all_words tokenize text workers = .ok v →
      ((ldttra_tokens tokenize text).length = 0 → v = 0) ∧
      (0 < (ldttra_tokens tokenize text).length →
        v = ((ldttra_tokens tokenize text).dedup.length : ℚ) /
            ((ldttra_tokens tokenize text).length : ℚ)) ∧
      0 ≤ v ∧ v ≤ 1) ∧
    (∀ v : ℚ, get_type_token_ratio_of_content_words tokenize text workers = .ok v →
      ((ldttrcw_tokens tokenize text).length = 0 → v = 0) ∧
      (0 < (ldttrcw_tokens tokenize text).length →
        v = ((ldttrcw_tokens tokenize text).dedup.length : ℚ) /
            ((ldttrcw_tokens tokenize text).length : ℚ)) ∧
      0 ≤ v ∧ v ≤ 1) := by
  constructor
  · intro v h
    unfold get_type_token_ratio_between_all_words at h
    split at h
    · exact absurd h (by simp)
    split at h
    · exact absurd h (by simp)
    simp only [Except.ok.injEq] at h
    exact ttr_value_spec _ v h.symm
  · intro v h
    unfold get_type_token_ratio_of_content_words at h
    split at h
    · exact absurd h (by simp)
    split at h
    · exact absurd h (by simp)
    simp only [Except.ok.injEq] at h
    exact ttr_value_spec _ v h.symm

/-- Witness for C6 at a concrete input: a parse producing no tokens, so both
ratios are the defined 0 inside [0, 1]. -/
theorem type_token_ratio_contract_witness :
    get_type_token_ratio_between_all_words (fun _ => []) ['a'] (-1) = .ok 0 ∧
    (0 : ℚ) = 0 ∧ (0 : ℚ) ≤ 0 ∧ (0 : ℚ) ≤ 1 := by
  have hok : get_type_token_ratio_between_all_words (fun _ => []) ['a'] (-1) = .ok 0 := by
    rfl
  have h := (type_token_ratio_contract (fun _ => []) ['a'] (-1)).1 0 hok
  exact ⟨hok, h.1 (by decide), h.2.2.1, h.2.2.2⟩

/-- C9: the content-word overlap value is always nonnegative and strictly
below 2, but it is not bounded by 1 — a sentence repeating a content word of
its predecessor pushes the value to 4/3. -/
theorem content_word_overlap_bounds :
    (∀ prev cur : List Token, 0 ≤ analyze_content_word_overlap prev cur ∧
      analyze_content_word_overlap prev cur < 2) ∧
    1 < analyze_content_word_overlap [sampleNoun] [sampleNoun, sampleNoun] := by
  constructor
  · intro prev cur
    simp only [analyze_content_word_overlap]
    by_cases h : (prev.filter is_content_word).length + (cur.filter is_content_word).length = 0
    · rw [if_pos h]
      norm_num
    · rw [if_neg h]
      have hMC : cur.countP (fun t => is_content_word t &&
          ((prev.filter is_content_word).map (fun t => pyToLower t.text.data)).contains
            (pyToLower t.text.data)) ≤ (cur.filter is_content_word).length := by
        rw [← List.countP_eq_length_filter]
        refine List.countP_mono_left (fun x _ hx => ?_)
        exact ((Bool.and_eq_true _ _).mp hx).1
      have hpos : (0 : ℚ) < (((prev.filter is_content_word).length +
          (cur.filter is_content_word).length : ℕ) : ℚ) := by
        exact_mod_cast Nat.pos_of_ne_zero h
      constructor
      · apply div_nonneg _ (le_of_lt hpos)
        positivity
      · rw [div_lt_iff₀ hpos]
        by_cases hP : (prev.filter is_content_word).length = 0
        · have hnil : prev.filter is_content_word = [] := List.length_eq_zero.mp hP
          have hM0 : cur.countP (fun t => is_content_word t &&
              ((prev.filter is_content_word).map (fun t => pyToLower t.text.data)).contains
                (pyToLower t.text.data)) = 0 := by
            rw [hnil]
            simp
          rw [hM0]
          push_cast at hpos ⊢
          nlinarith [hpos]
        · have h1 : 0 < (prev.filter is_content_word).length := Nat.pos_of_ne_zero hP
          push_cast at hpos ⊢
          have : (cur.countP (fun t => is_content_word t &&
              ((prev.filter is_content_word).map (fun t => pyToLower t.text.data)).contains
                (pyToLower t.text.data)) : ℚ) ≤ ((cur.filter is_content_word).length : ℚ) := by
            exact_mod_cast hMC
          have h1q : (1 : ℚ) ≤ ((prev.filter is_content_word).length : ℚ) := by
            exact_mod_cast h1
          nlinarith
  · norm_num [analyze_content_word_overlap, is_content_word, is_word, sampleNoun, pyToLower]

/-- Helper: binding a successful Except value just applies the
continuation. -/
theorem except_ok_bind {ε α β : Type} (a : α) (f : α → Except ε β) :
    (Except.ok a >>= f : Except ε β) = f a := rfl

/-- Helper: `_get_mean_std_of_metric` with statistic type `all` on a
non-empty sample returns both statistics. -/
theorem get_mean_std_all_ok (pstdev : List ℚ → ℚ) (n : Nat) (counter : List ℚ)
    (hn : ¬ n = 0) (hc : ¬ counter = []) :
    _get_mean_std_of_metric pstdev n counter "all" =
      .ok { mean := some (pymean counter), std := some (pstdev counter) } := by
  unfold _get_mean_std_of_metric
  rw [if_neg hn, if_neg (by decide), if_neg (by simpa [List.length_eq_zero] using hc)]
  rfl

/-- Helper: binding a failed Except value keeps the failure. -/
theorem except_error_bind {ε α β : Type} (e : ε) (f : α → Except ε β) :
    (Except.error e >>= f : Except ε β) = .error e := rfl

/-- Helper: `_get_mean_std_of_metric` fails on the empty sample, as the
Python statistics functions do. -/
theorem get_mean_std_all_empty (pstdev : List ℚ → ℚ) (n : Nat) (hn : ¬ n = 0) :
    _get_mean_std_of_metric pstdev n [] "all" = .error "StatisticsError: no data points" := by
  unfold _get_mean_std_of_metric
  rw [if_neg hn]
  rfl

/-- C5: whenever the descriptive pipe succeeds, the readability pipe of the
same document reports RDFHGL exactly as
`206.84 - 0.60 * DESWLsy - 1.02 * DESSL`, where DESWLsy is the document's
mean syllable count per word and DESSL its mean word count per sentence. -/
theorem rdfhgl_equals_fernandez_huertas_formula (pstdev : List ℚ → ℚ) (doc : PDoc)
    (d : DescriptiveIndicesValues)
    (h : descriptive_indices_pipe pstdev doc = .ok d) :
    readability_indices_pipe doc.text.length d =
      .ok (206.84 - 0.6 * meanSyllablesPerWord doc - 1.02 * meanWordsPerSentence doc) := by
  by_cases hn : doc.text.length = 0
  · unfold descriptive_indices_pipe at h
    rw [if_pos hn] at h
    exact absurd h (by simp)
  by_cases e1 : doc.paragraphs.map (fun p => ((paragraph_non_empty_sentences p).length : ℚ)) = []
  · rw [descriptive_indices_pipe, if_neg hn] at h
    simp only [e1, get_mean_std_all_empty pstdev doc.text.length hn,
      except_error_bind] at h
    exact Except.noConfusion h
  by_cases e2 : (split_doc_into_sentences doc).map
      (fun s => ((sentence_alpha_words s).length : ℚ)) = []
  · rw [descriptive_indices_pipe, if_neg hn] at h
    simp only [get_mean_std_all_ok pstdev doc.text.length _ hn e1, except_ok_bind,
      e2, get_mean_std_all_empty pstdev doc.text.length hn, except_error_bind] at h
    exact Except.noConfusion h
  by_cases e3 : (doc_alpha_words doc).map (fun t => (t.text.length : ℚ)) = []
  · rw [descriptive_indices_pipe, if_neg hn] at h
    simp only [get_mean_std_all_ok pstdev doc.text.length _ hn e1, except_ok_bind,
      get_mean_std_all_ok pstdev doc.text.length _ hn e2,
      e3, get_mean_std_all_empty pstdev doc.text.length hn, except_error_bind] at h
    exact Except.noConfusion h
  by_cases e4 : ((doc_alpha_words doc).filter (fun t => t.syllables.isSome)).map
      (fun t => ((t.syllables.getD []).length : ℚ)) = []
  · rw [descriptive_indices_pipe, if_neg hn] at h
    simp only [get_mean_std_all_ok pstdev doc.text.length _ hn e1, except_ok_bind,
      get_mean_std_all_ok pstdev doc.text.length _ hn e2,
      get_mean_std_all_ok pstdev doc.text.length _ hn e3,
      e4, get_mean_std_all_empty pstdev doc.text.length hn, except_error_bind] at h
    exact Except.noConfusion h
  have hpipe : descriptive_indices_pipe pstdev doc = .ok
      { DESPC := doc.paragraphs.length
        DESSC := (doc.paragraphs.map (fun p => (paragraph_non_empty_sentences p).length)).sum
        DESWC := (doc_alpha_words doc).length
        DESPL := some (pymean (doc.paragraphs.map
          (fun p => ((paragraph_non_empty_sentences p).length : ℚ))))
        DESPLd := some (pstdev (doc.paragraphs.map
          (fun p => ((paragraph_non_empty_sentences p).length : ℚ))))
        DESSL := some (pymean ((split_doc_into_sentences doc).map
          (fun s => ((sentence_alpha_words s).length : ℚ))))
        DESSLd := some (pstdev ((split_doc_into_sentences doc).map
          (fun s => ((sentence_alpha_words s).length : ℚ))))
        DESWLlt := some (pymean ((doc_alpha_words doc).map (fun t => (t.text.length : ℚ))))
        DESWLltd := some (pstdev ((doc_alpha_words doc).map (fun t => (t.text.length : ℚ))))
        DESWLsy := some (pymean (((doc_alpha_words doc).filter
          (fun t => t.syllables.isSome)).map (fun t => ((t.syllables.getD []).length : ℚ))))
        DESWLsyd := some (pstdev (((doc_alpha_words doc).filter
          (fun t => t.syllables.isSome)).map (fun t => ((t.syllables.getD []).length : ℚ)))) } := by
    rw [descriptive_indices_pipe, if_neg hn]
    simp only [get_mean_std_all_ok pstdev doc.text.length _ hn e1, except_ok_bind,
      get_mean_std_all_ok pstdev doc.text.length _ hn e2,
      get_mean_std_all_ok pstdev doc.text.length _ hn e3,
      get_mean_std_all_ok pstdev doc.text.length _ hn e4]
    rfl
  rw [hpipe] at h
  injection h with h
  subst h
  rw [readability_indices_pipe, if_neg hn]
  rfl

/-- Witness for C5 at a concrete input: the one-word sample document. -/
theorem rdfhgl_equals_fernandez_huertas_formula_witness :
    readability_indices_pipe sampleDoc.text.length sampleDescriptive =
      .ok (206.84 - 0.6 * meanSyllablesPerWord sampleDoc -
        1.02 * meanWordsPerSentence sampleDoc) :=
  rdfhgl_equals_fernandez_huertas_formula (fun _ => 0) sampleDoc sampleDescriptive (by rfl)

/-- Helper: unfolding equation of `splitNN` on a list with two or more
characters. -/
theorem splitNN_cons₂ (c d : Char) (rest : List Char) :
    splitNN (c :: d :: rest) =
      if c = '\n' ∧ d = '\n'
      then [] :: splitNN rest
      else consHead c (splitNN (d :: rest)) := rfl

/-- Helper: decomposing the absence of the delimiter in a cons cell. -/
theorem hasSepB_cons_false {c : Char} {rest : List Char} (h : hasSepB (c :: rest) = false) :
    ¬(c = '\n' ∧ rest.head? = some '\n') ∧ hasSepB rest = false := by
  rw [hasSepB, Bool.or_eq_false_iff] at h
  refine ⟨?_, h.2⟩
  intro hc
  have h1 := h.1
  rw [hc.1, hc.2] at h1
  simp at h1

/-- Helper: the split of a text is never the empty piece list. -/
theorem splitNN_ne_nil : ∀ l : List Char, splitNN l ≠ []
  | [] => by simp [splitNN]
  | [c] => by simp [splitNN]
  | c :: d :: rest => by
    rw [splitNN_cons₂]
    split
    · simp
    · cases h : splitNN (d :: rest) with
      | nil => simp [consHead]
      | cons p ps => simp [consHead]

/-- Helper: a text without the paragraph delimiter splits into itself. -/
theorem splitNN_of_no_sep : ∀ l : List Char, hasSepB l = false → splitNN l = [l]
  | [], _ => rfl
  | [c], _ => rfl
  | c :: d :: rest, h => by
    obtain ⟨h1, h2⟩ := hasSepB_cons_false h
    have hcd : ¬(c = '\n' ∧ d = '\n') := fun hx => h1 ⟨hx.1, by simp [hx.2]⟩
    rw [splitNN_cons₂, if_neg hcd, splitNN_of_no_sep (d :: rest) h2]
    rfl

/-- Helper: splitting a piece, the delimiter, and a remainder peels off the
piece, provided the piece neither contains the delimiter nor ends with a
newline. -/
theorem splitNN_append_sep : ∀ (a b : List Char), hasSepB a = false →
    (a = [] ∨ a.getLast? ≠ some '\n') →
    splitNN (a ++ '\n' :: '\n' :: b) = a :: splitNN b
  | [], b, _, _ => by
    rw [List.nil_append, splitNN_cons₂, if_pos ⟨rfl, rfl⟩]
  | [c], b, hsep, hlast => by
    have hc : ¬ c = '\n' := by
      rcases hlast with h | h
      · exact absurd h (by simp)
      · simpa using h
    rw [List.cons_append, List.nil_append, splitNN_cons₂,
      if_neg (by exact fun hx => hc hx.1), splitNN_cons₂, if_pos ⟨rfl, rfl⟩]
    rfl
  | c :: e :: a, b, hsep, hlast => by
    obtain ⟨h1, h2⟩ := hasSepB_cons_false hsep
    have hlast' : (e :: a : List Char) = [] ∨ (e :: a).getLast? ≠ some '\n' := by
      right
      rcases hlast with h | h
      · exact absurd h (by simp)
      · rw [List.getLast?_cons_cons] at h
        exact h
    have hce : ¬(c = '\n' ∧ e = '\n') := fun hx => h1 ⟨hx.1, by simp [hx.2]⟩
    have ih := splitNN_append_sep (e :: a) b h2 hlast'
    rw [List.cons_append] at ih
    rw [List.cons_append, List.cons_append, splitNN_cons₂, if_neg hce, ih]
    rfl

/-- Helper: splitting the join of clean pieces recovers the pieces: none may
contain the delimiter or end with a newline. -/
theorem splitNN_joinNN : ∀ ps : List (List Char), ps ≠ [] →
    (∀ p ∈ ps, hasSepB p = false ∧ (p = [] ∨ p.getLast? ≠ some '\n')) →
    splitNN (joinNN ps) = ps
  | [], h, _ => absurd rfl h
  | [p], _, hall => by
    have hp := hall p (by simp)
    rw [joinNN, splitNN_of_no_sep p hp.1]
  | p :: q :: ps, _, hall => by
    have hp := hall p (by simp)
    have ih := splitNN_joinNN (q :: ps) (by simp) (fun r hr => hall r (by simp [hr]))
    show splitNN (p ++ '\n' :: '\n' :: joinNN (q :: ps)) = p :: q :: ps
    rw [splitNN_append_sep p (joinNN (q :: ps)) hp.1 hp.2, ih]

/-- Helper: the optional last element ignores a head when the tail is
non-empty. -/
theorem getLast?_cons_of_ne_nil {α : Type} (x : α) {xs : List α} (h : xs ≠ []) :
    (x :: xs).getLast? = xs.getLast? := by
  cases xs with
  | nil => exact absurd rfl h
  | cons y ys => rw [List.getLast?_cons_cons]

/-- Helper: a non-empty first piece of a split starts with the first
character of the text. -/
theorem splitNN_first_head : ∀ (l q : List Char) (qs : List (List Char)),
    splitNN l = q :: qs → q ≠ [] → q.head? = l.head?
  | [], q, qs, hq, hne => by
    rw [splitNN] at hq
    injection hq with h1 _
    exact absurd h1.symm hne
  | [c], q, qs, hq, hne => by
    rw [splitNN] at hq
    injection hq with h1 _
    rw [← h1]
  | c :: d :: rest, q, qs, hq, hne => by
    rw [splitNN_cons₂] at hq
    by_cases h : c = '\n' ∧ d = '\n'
    · rw [if_pos h] at hq
      injection hq with h1 _
      exact absurd h1.symm hne
    · rw [if_neg h] at hq
      cases hsp : splitNN (d :: rest) with
      | nil => exact absurd hsp (splitNN_ne_nil _)
      | cons p ps =>
        rw [hsp] at hq
        injection hq with h1 _
        rw [← h1]
        rfl

/-- Helper: no piece produced by the split contains the delimiter. -/
theorem hasSepB_of_mem_splitNN : ∀ (l p : List Char), p ∈ splitNN l → hasSepB p = false
  | [], p, hp => by
    rw [splitNN] at hp
    simp at hp
    subst hp
    rfl
  | [c], p, hp => by
    rw [splitNN] at hp
    simp at hp
    subst hp
    simp [hasSepB]
  | c :: d :: rest, p, hp => by
    rw [splitNN_cons₂] at hp
    by_cases h : c = '\n' ∧ d = '\n'
    · rw [if_pos h] at hp
      rcases List.mem_cons.mp hp with h1 | h1
      · subst h1
        rfl
      · exact hasSepB_of_mem_splitNN rest p h1
    · rw [if_neg h] at hp
      cases hsp : splitNN (d :: rest) with
      | nil => exact absurd hsp (splitNN_ne_nil _)
      | cons q qs =>
        rw [hsp] at hp
        rcases List.mem_cons.mp hp with h1 | h1
        · subst h1
          have hq : hasSepB q = false :=
            hasSepB_of_mem_splitNN (d :: rest) q (by rw [hsp]; exact List.mem_cons_self _ _)
          rw [hasSepB, hq, Bool.or_false]
          by_cases hc : c = '\n'
          · by_cases hqnil : q = []
            · subst hqnil
              simp
            · have hqh := splitNN_first_head (d :: rest) q qs hsp hqnil
              have hd : ¬ d = '\n' := fun hd => h ⟨hc, hd⟩
              rw [hqh]
              simp [hd]
          · simp [hc]
        · exact hasSepB_of_mem_splitNN (d :: rest) p (by rw [hsp]; exact List.mem_cons_of_mem _ h1)

/-- Helper: a text that does not start with a newline splits into a
non-empty first piece starting with the same character. -/
theorem splitNN_head_piece : ∀ (l : List Char), l ≠ [] → l.head? ≠ some '\n' →
    ∃ p ps, splitNN l = p :: ps ∧ p ≠ [] ∧ p.head? = l.head?
  | [], h, _ => absurd rfl h
  | [c], _, _ => ⟨[c], [], rfl, by simp, rfl⟩
  | c :: d :: rest, _, hl => by
    have hc : ¬ c = '\n' := by simpa using hl
    rw [splitNN_cons₂, if_neg (fun hx => hc hx.1)]
    cases hsp : splitNN (d :: rest) with
    | nil => exact absurd hsp (splitNN_ne_nil _)
    | cons p ps => exact ⟨c :: p, ps, rfl, by simp, rfl⟩

/-- Helper: a text that does not end with a newline splits with a non-empty
last piece ending in the same character. -/
theorem splitNN_last_piece : ∀ (l : List Char), l ≠ [] → l.getLast? ≠ some '\n' →
    ∃ q, (splitNN l).getLast? = some q ∧ q ≠ [] ∧ q.getLast? = l.getLast?
  | [], h, _ => absurd rfl h
  | [c], _, _ => ⟨[c], by rw [splitNN]; rfl, by simp, rfl⟩
  | c :: d :: rest, _, hl => by
    have hl' : (d :: rest).getLast? ≠ some '\n' := by
      rwa [List.getLast?_cons_cons] at hl
    rw [splitNN_cons₂]
    by_cases h : c = '\n' ∧ d = '\n'
    · rw [if_pos h]
      cases hrest : rest with
      | nil =>
        exfalso
        apply hl
        rw [hrest, List.getLast?_cons_cons, h.2]
        rfl
      | cons e rest2 =>
        have hrne : rest ≠ [] := by rw [hrest]; simp
        have hrr : (d :: rest).getLast? = rest.getLast? := getLast?_cons_of_ne_nil d hrne
        obtain ⟨q, hq1, hq2, hq3⟩ := splitNN_last_piece rest hrne (by rw [← hrr]; exact hl')
        refine ⟨q, ?_, hq2, ?_⟩
        · rw [← hrest, getLast?_cons_of_ne_nil ([] : List Char) (splitNN_ne_nil rest)]
          exact hq1
        · rw [hq3, ← hrr, List.getLast?_cons_cons, hrest]
    · rw [if_neg h]
      cases hsp : splitNN (d :: rest) with
      | nil => exact absurd hsp (splitNN_ne_nil _)
      | cons p ps =>
        obtain ⟨q, hq1, hq2, hq3⟩ := splitNN_last_piece (d :: rest) (by simp) hl'
        rw [hsp] at hq1
        cases hps : ps with
        | nil =>
          subst hps
          have hpq : p = q := by
            have : some p = some q := by
              rw [← hq1]
              rfl
            exact Option.some.inj this
          subst hpq
          refine ⟨c :: p, by rfl, by simp, ?_⟩
          rw [getLast?_cons_of_ne_nil c hq2, hq3, List.getLast?_cons_cons]
        | cons r rs =>
          subst hps
          refine ⟨q, ?_, hq2, ?_⟩
          · show ((c :: p) :: r :: rs).getLast? = some q
            rw [List.getLast?_cons_cons]
            rw [← hq1, List.getLast?_cons_cons]
          · rw [hq3, List.getLast?_cons_cons]

/-- Helper: dropping leading whitespace does nothing when the head is not
whitespace. -/
theorem pyLStrip_eq_self {l : List Char}
    (h : ∀ c, l.head? = some c → pyIsSpace c = false) : pyLStrip l = l := by
  cases l with
  | nil => rfl
  | cons x xs =>
    rw [pyLStrip, List.dropWhile_cons, if_neg]
    rw [h x rfl]
    simp

/-- Helper: dropping trailing whitespace does nothing when the last
character is not whitespace. -/
theorem pyRStrip_eq_self {l : List Char}
    (h : ∀ c, l.getLast? = some c → pyIsSpace c = false) : pyRStrip l = l := by
  have hd : l.reverse.dropWhile pyIsSpace = l.reverse := by
    cases hr : l.reverse with
    | nil => rfl
    | cons x xs =>
      rw [List.dropWhile_cons, if_neg]
      have hx : l.getLast? = some x := by
        rw [← List.head?_reverse, hr]
        rfl
      rw [h x hx]
      simp
  rw [pyRStrip, hd, List.reverse_reverse]

/-- Helper: a non-whitespace head and a non-whitespace last character make
stripping a no-op. -/
theorem pyStrip_eq_self {l : List Char}
    (hh : ∀ c, l.head? = some c → pyIsSpace c = false)
    (hl : ∀ c, l.getLast? = some c → pyIsSpace c = false) : pyStrip l = l := by
  rw [pyStrip, pyLStrip_eq_self hh, pyRStrip_eq_self hl]

/-- Helper: the head of a left-stripped list is never whitespace. -/
theorem pyLStrip_head_not_space {l : List Char} {c : Char}
    (h : (pyLStrip l).head? = some c) : pyIsSpace c = false := by
  have hne : pyLStrip l ≠ [] := by
    intro hx
    rw [hx] at h
    exact Option.noConfusion h
  have := List.head_dropWhile_not pyIsSpace l (by rwa [pyLStrip] at hne)
  have hc : (pyLStrip l).head (by rwa [pyLStrip] at hne) = c := by
    have := List.head?_eq_head (l := pyLStrip l) (by rwa [pyLStrip] at hne)
    rw [this] at h
    exact Option.some.inj h
  rw [← hc]
  exact this

/-- Helper: the trailing strip is a prefix of its input. -/
theorem pyRStrip_prefix_self (l : List Char) : pyRStrip l <+: l := by
  rw [pyRStrip]
  apply List.reverse_suffix.mp
  rw [List.reverse_reverse]
  exact List.dropWhile_suffix _

/-- Helper: the last character of a right-stripped list is never
whitespace. -/
theorem pyRStrip_getLast_not_space {l : List Char} {c : Char}
    (h : (pyRStrip l).getLast? = some c) : pyIsSpace c = false := by
  rw [pyRStrip, List.getLast?_reverse] at h
  exact pyLStrip_head_not_space (l := l.reverse) h

/-- Helper: a non-empty prefix shares its head with the whole list. -/
theorem head?_of_prefix {α : Type} {u v : List α} (h : u <+: v) (hu : u ≠ []) :
    u.head? = v.head? := by
  obtain ⟨t, ht⟩ := h
  cases u with
  | nil => exact absurd rfl hu
  | cons x xs =>
    rw [← ht]
    rfl

/-- Helper: the head of a stripped list is never whitespace. -/
theorem pyStrip_head_not_space {l : List Char} {c : Char}
    (h : (pyStrip l).head? = some c) : pyIsSpace c = false := by
  have hne : pyStrip l ≠ [] := by
    intro hx
    rw [hx] at h
    exact Option.noConfusion h
  have hpre : pyStrip l <+: pyLStrip l := pyRStrip_prefix_self _
  have := head?_of_prefix hpre hne
  exact pyLStrip_head_not_space (by rw [← this]; exact h)

/-- Helper: the last character of a stripped list is never whitespace. -/
theorem pyStrip_getLast_not_space {l : List Char} {c : Char}
    (h : (pyStrip l).getLast? = some c) : pyIsSpace c = false :=
  pyRStrip_getLast_not_space h

/-- Helper: stripping is idempotent. -/
theorem pyStrip_idem (l : List Char) : pyStrip (pyStrip l) = pyStrip l :=
  pyStrip_eq_self (fun _ h => pyStrip_head_not_space h)
    (fun _ h => pyStrip_getLast_not_space h)

/-- Helper: a list containing a non-whitespace character does not strip to
nothing. -/
theorem pyStrip_ne_nil {l : List Char} {c : Char} (hc : c ∈ l)
    (hsp : pyIsSpace c = false) : pyStrip l ≠ [] := by
  have hl : pyLStrip l ≠ [] := by
    rw [pyLStrip]
    intro hx
    exact absurd (List.dropWhile_eq_nil_iff.mp hx c hc) (by rw [hsp]; simp)
  rw [pyStrip, pyRStrip]
  intro hx
  have hrev : (pyLStrip l).reverse.dropWhile pyIsSpace = [] := by
    have := congrArg List.reverse hx
    rwa [List.reverse_reverse, List.reverse_nil] at this
  have hhead := pyLStrip_head_not_space
    (l := l) (List.head?_eq_head (l := pyLStrip l) hl)
  have hmem : (pyLStrip l).head hl ∈ (pyLStrip l).reverse := by
    rw [List.mem_reverse]
    exact List.head_mem hl
  exact absurd (List.dropWhile_eq_nil_iff.mp hrev _ hmem) (by rw [hhead]; simp)

/-- Helper: the delimiter-free property descends to suffixes. -/
theorem hasSepB_suffix {u v : List Char} (h : u <:+ v) (hv : hasSepB v = false) :
    hasSepB u = false := by
  obtain ⟨w, hw⟩ := h
  subst hw
  induction w with
  | nil => exact hv
  | cons x xs ih => exact ih (hasSepB_cons_false hv).2

/-- Helper: the delimiter-free property descends to prefixes. -/
theorem hasSepB_prefix {u v : List Char} (h : u <+: v) (hv : hasSepB v = false) :
    hasSepB u = false := by
  obtain ⟨w, hw⟩ := h
  subst hw
  induction u with
  | nil => rfl
  | cons x xs ih =>
    have hx := hasSepB_cons_false hv
    rw [hasSepB, ih hx.2, Bool.or_false]
    by_cases hxn : x = '\n'
    · cases xs with
      | nil => simp
      | cons y ys =>
        by_cases hy : y = '\n'
        · exfalso
          apply hx.1
          refine ⟨hxn, ?_⟩
          show (y :: (ys ++ w)).head? = some '\n'
          rw [hy]
          rfl
        · simp [hy]
    · simp [hxn]

/-- Helper: stripping preserves freedom from the delimiter. -/
theorem hasSepB_pyStrip {l : List Char} (h : hasSepB l = false) :
    hasSepB (pyStrip l) = false := by
  apply hasSepB_prefix (pyRStrip_prefix_self (pyLStrip l))
  exact hasSepB_suffix (List.dropWhile_suffix _) h

/-- Helper: the join of a piece list with non-empty first piece starts with
that piece's first character. -/
theorem joinNN_head {h : List Char} (t : List (List Char)) (hne : h ≠ []) :
    (joinNN (h :: t)).head? = h.head? := by
  cases t with
  | nil => rfl
  | cons y ys =>
    show (h ++ '\n' :: '\n' :: joinNN (y :: ys)).head? = h.head?
    cases h with
    | nil => exact absurd rfl hne
    | cons c cs => rfl

/-- Helper: the join of a piece list whose last piece is non-empty is itself
non-empty and ends with that piece's last character. -/
theorem joinNN_getLast : ∀ (ps : List (List Char)) (q : List Char),
    ps.getLast? = some q → q ≠ [] →
    joinNN ps ≠ [] ∧ (joinNN ps).getLast? = q.getLast?
  | [], q, h, _ => Option.noConfusion h
  | [x], q, h, hq => by
    have hx : x = q := by simpa using h
    subst hx
    exact ⟨hq, rfl⟩
  | x :: y :: t, q, h, hq => by
    have h' : (y :: t).getLast? = some q := by rwa [List.getLast?_cons_cons] at h
    obtain ⟨ihne, ihlast⟩ := joinNN_getLast (y :: t) q h' hq
    obtain ⟨qc, hqc⟩ : ∃ qc, q.getLast? = some qc := by
      cases hx : q.getLast? with
      | none => exact absurd (by simpa using hx) hq
      | some c => exact ⟨c, rfl⟩
    constructor
    · show x ++ '\n' :: '\n' :: joinNN (y :: t) ≠ []
      simp
    · show (x ++ '\n' :: '\n' :: joinNN (y :: t)).getLast? = q.getLast?
      rw [List.getLast?_append]
      have e1 : ('\n' :: '\n' :: joinNN (y :: t)).getLast? = (joinNN (y :: t)).getLast? := by
        rw [List.getLast?_cons_cons, getLast?_cons_of_ne_nil '\n' ihne]
      rw [e1, ihlast, hqc]
      rfl

/-- Helper: filtering keeps a surviving last element last. -/
theorem filter_getLast_of_pred {α : Type} (pred : α → Bool) :
    ∀ (l : List α) (q : α), l.getLast? = some q → pred q = true →
      (l.filter pred).getLast? = some q
  | [], q, h, _ => Option.noConfusion h
  | [x], q, h, hp => by
    have hx : x = q := by simpa using h
    subst hx
    rw [List.filter_cons, if_pos hp]
    rfl
  | x :: y :: t, q, h, hp => by
    have h' : (y :: t).getLast? = some q := by rwa [List.getLast?_cons_cons] at h
    have ih := filter_getLast_of_pred pred (y :: t) q h' hp
    rw [List.filter_cons]
    by_cases hx : pred x = true
    · rw [if_pos hx]
      have hne : (y :: t).filter pred ≠ [] := by
        intro hz
        rw [hz] at ih
        exact Option.noConfusion ih
      rw [getLast?_cons_of_ne_nil x hne]
      exact ih
    · rw [if_neg hx]
      exact ih

/-- C3 (amended): re-splitting the re-joined paragraph list yields the
original paragraph list with its empty paragraphs removed — the round trip
is the identity exactly on splits without empty paragraphs. -/
theorem split_text_round_trip_drops_empty (t : List Char) :
    split_text_into_paragraphs (joinNN (split_text_into_paragraphs t)) =
      (split_text_into_paragraphs t).filter (fun p => p ≠ []) := by
  have hdef : split_text_into_paragraphs t =
      ((splitNN (pyStrip t)).filter (fun p => 0 < p.length)).map pyStrip := rfl
  by_cases hs : pyStrip t = []
  · have h0 : split_text_into_paragraphs t = [] := by
      rw [hdef, hs]
      rfl
    rw [h0]
    rfl
  · obtain ⟨c0, hc0⟩ : ∃ c, (pyStrip t).head? = some c := by
      cases hx : (pyStrip t).head? with
      | none => exact absurd (List.head?_eq_none_iff.mp hx) hs
      | some c => exact ⟨c, rfl⟩
    have hc0s : pyIsSpace c0 = false := pyStrip_head_not_space hc0
    have hc0n : (pyStrip t).head? ≠ some '\n' := by
      rw [hc0]
      intro hx
      injection hx with hx
      rw [hx] at hc0s
      exact absurd hc0s (by decide)
    obtain ⟨p₁, PS2, hPS, hp₁ne, hp₁head⟩ := splitNN_head_piece (pyStrip t) hs hc0n
    obtain ⟨cL, hcL⟩ : ∃ c, (pyStrip t).getLast? = some c := by
      cases hx : (pyStrip t).getLast? with
      | none => exact absurd (by simpa using hx) hs
      | some c => exact ⟨c, rfl⟩
    have hcLs : pyIsSpace cL = false := pyStrip_getLast_not_space hcL
    have hcLn : (pyStrip t).getLast? ≠ some '\n' := by
      rw [hcL]
      intro hx
      injection hx with hx
      rw [hx] at hcLs
      exact absurd hcLs (by decide)
    obtain ⟨q, hq1, hq2, hq3⟩ := splitNN_last_piece (pyStrip t) hs hcLn
    have hp₁len : (fun p : List Char => decide (0 < p.length)) p₁ = true := by
      simp [List.length_pos, hp₁ne]
    have hFS : (splitNN (pyStrip t)).filter (fun p => 0 < p.length) =
        p₁ :: PS2.filter (fun p => 0 < p.length) := by
      rw [hPS, List.filter_cons, if_pos hp₁len]
    have hps : split_text_into_paragraphs t =
        pyStrip p₁ :: (PS2.filter (fun p => 0 < p.length)).map pyStrip := by
      rw [hdef, hFS]
      rfl
    have hc0p₁ : c0 ∈ p₁ := List.mem_of_mem_head? (by rw [hp₁head, hc0]; rfl)
    have hsp₁ : pyStrip p₁ ≠ [] := pyStrip_ne_nil hc0p₁ hc0s
    have hcLq : cL ∈ q := List.mem_of_mem_getLast? (by rw [hq3, hcL]; rfl)
    have hspq : pyStrip q ≠ [] := pyStrip_ne_nil hcLq hcLs
    have hqpred : (fun p : List Char => decide (0 < p.length)) q = true := by
      simp [List.length_pos, hq2]
    have hFlast : ((splitNN (pyStrip t)).filter (fun p => 0 < p.length)).getLast? = some q :=
      filter_getLast_of_pred _ _ q hq1 hqpred
    have hpslast : (split_text_into_paragraphs t).getLast? = some (pyStrip q) := by
      rw [hdef, List.getLast?_map, hFlast]
      rfl
    have hclean : ∀ r ∈ split_text_into_paragraphs t,
        hasSepB r = false ∧ (r = [] ∨ r.getLast? ≠ some '\n') := by
      intro r hr
      rw [hdef] at hr
      obtain ⟨x, hx1, hx2⟩ := List.mem_map.mp hr
      have hxPS : x ∈ splitNN (pyStrip t) := (List.mem_filter.mp hx1).1
      have hxsep := hasSepB_of_mem_splitNN (pyStrip t) x hxPS
      subst hx2
      refine ⟨hasSepB_pyStrip hxsep, ?_⟩
      by_cases hrnil : pyStrip x = []
      · exact Or.inl hrnil
      · right
        intro hlast
        exact absurd (pyStrip_getLast_not_space hlast) (by decide)
    have hpsne : split_text_into_paragraphs t ≠ [] := by
      rw [hps]
      simp
    have hfix : ∀ r ∈ split_text_into_paragraphs t, pyStrip r = r := by
      intro r hr
      rw [hdef] at hr
      obtain ⟨x, _, hx2⟩ := List.mem_map.mp hr
      rw [← hx2]
      exact pyStrip_idem x
    obtain ⟨hJne, hJlast⟩ :=
      joinNN_getLast (split_text_into_paragraphs t) (pyStrip q) hpslast hspq
    have hJhead : (joinNN (split_text_into_paragraphs t)).head? = (pyStrip p₁).head? := by
      rw [hps]
      exact joinNN_head _ hsp₁
    have hJstrip : pyStrip (joinNN (split_text_into_paragraphs t)) =
        joinNN (split_text_into_paragraphs t) := by
      apply pyStrip_eq_self
      · intro c hc
        rw [hJhead] at hc
        exact pyStrip_head_not_space hc
      · intro c hc
        rw [hJlast] at hc
        exact pyStrip_getLast_not_space hc
    have hJsplit : splitNN (joinNN (split_text_into_paragraphs t)) =
        split_text_into_paragraphs t :=
      splitNN_joinNN _ hpsne hclean
    have hL : split_text_into_paragraphs (joinNN (split_text_into_paragraphs t)) =
        ((split_text_into_paragraphs t).filter (fun p => 0 < p.length)).map pyStrip := by
      show ((splitNN (pyStrip (joinNN (split_text_into_paragraphs t)))).filter
        (fun p => 0 < p.length)).map pyStrip = _
      rw [hJstrip, hJsplit]
    rw [hL]
    have hmap : ((split_text_into_paragraphs t).filter (fun p => 0 < p.length)).map pyStrip =
        (split_text_into_paragraphs t).filter (fun p => 0 < p.length) := by
      have hcongr := List.map_congr_left
        (l := (split_text_into_paragraphs t).filter (fun p => 0 < p.length))
        (f := pyStrip) (g := id)
        (fun a ha => hfix a (List.mem_filter.mp ha).1)
      rw [hcongr, List.map_id]
    rw [hmap]
    exact List.filter_congr (fun x _ => by simp [List.length_pos])

/-- C3 (counterexample): the text `"a\n\n \n\nb"` splits into the
paragraphs `a`, `` (empty, from the whitespace-only middle piece) and `b`;
re-joining and re-splitting drops the empty paragraph, so the round trip is
not the identity. -/
theorem split_text_round_trip_counterexample :
    split_text_into_paragraphs (joinNN (split_text_into_paragraphs
        ['a', '\n', '\n', ' ', '\n', '\n', 'b'])) ≠
      split_text_into_paragraphs ['a', '\n', '\n', ' ', '\n', '\n', 'b'] := by
  decide

/-- Helper: the span sort order is transitive. -/
theorem spanSortLE_trans : ∀ a b c : TokenSpan,
    spanSortLE a b = true → spanSortLE b c = true → spanSortLE a c = true := by
  intro a b c hab hbc
  simp only [spanSortLE, Bool.or_eq_true, Bool.and_eq_true, decide_eq_true_eq] at hab hbc ⊢
  omega

/-- Helper: the span sort order is total. -/
theorem spanSortLE_total : ∀ a b : TokenSpan,
    (spanSortLE a b || spanSortLE b a) = true := by
  intro a b
  simp only [spanSortLE, Bool.or_eq_true, Bool.and_eq_true, decide_eq_true_eq]
  omega

/-- Helper: an uncovered index is inside no kept span. -/
theorem coveredTok_false {kept : List TokenSpan} {i : Nat}
    (h : coveredTok kept i = false) :
    ∀ a ∈ kept, ¬ (a.start ≤ i ∧ i < a.stop) := by
  intro a ha hai
  rw [coveredTok, List.any_eq_false] at h
  have hx := h a ha
  simp only [Bool.and_eq_true, decide_eq_true_eq] at hx
  exact hx hai

/-- Helper: a covered index lies inside some kept span. -/
theorem coveredTok_true {kept : List TokenSpan} {i : Nat}
    (h : coveredTok kept i = true) :
    ∃ a ∈ kept, a.start ≤ i ∧ i < a.stop := by
  rw [coveredTok, List.any_eq_true] at h
  obtain ⟨a, ha, hai⟩ := h
  simp only [Bool.and_eq_true, decide_eq_true_eq] at hai
  exact ⟨a, ha, hai⟩

/-- Helper (the geometric core of overlap resolution): a span at least as
long as `s` cannot intersect `s` without containing its first or last
token. -/
theorem not_intersect_of_endpoints_uncovered {a s : TokenSpan}
    (ha : 0 < spanLen a) (hs : 0 < spanLen s)
    (hle : spanSortLE a s = true)
    (h1 : ¬ (a.start ≤ s.start ∧ s.start < a.stop))
    (h2 : ¬ (a.start ≤ s.stop - 1 ∧ s.stop - 1 < a.stop)) :
    ¬ spansIntersect a s := by
  simp only [spanSortLE, Bool.or_eq_true, Bool.and_eq_true, decide_eq_true_eq] at hle
  simp only [spanLen] at ha hs hle
  rintro ⟨hi1, hi2⟩
  omega

/-- Helper: the greedy pass never drops an already kept span. -/
theorem greedyFilterSpans_kept_mem : ∀ (l kept : List TokenSpan) (x : TokenSpan),
    x ∈ kept → x ∈ greedyFilterSpans l kept
  | [], _, x, hx => hx
  | s :: rest, kept, x, hx => by
    rw [greedyFilterSpans]
    split
    · exact greedyFilterSpans_kept_mem rest (kept ++ [s]) x (by simp [hx])
    · exact greedyFilterSpans_kept_mem rest kept x hx

/-- Helper: pairwise non-intersection is preserved through the greedy pass,
given that the pending spans are sorted below every kept span. -/
theorem greedyFilterSpans_pairwise : ∀ (l kept : List TokenSpan),
    (∀ s ∈ l, 0 < spanLen s) → (∀ s ∈ kept, 0 < spanLen s) →
    List.Pairwise (fun a b => spanSortLE a b = true) l →
    (∀ a ∈ kept, ∀ s ∈ l, spanSortLE a s = true) →
    List.Pairwise (fun a b => ¬ spansIntersect a b) kept →
    List.Pairwise (fun a b => ¬ spansIntersect a b) (greedyFilterSpans l kept)
  | [], kept, _, _, _, _, hkpair => hkpair
  | s :: rest, kept, hlen, hklen, hsorted, hkle, hkpair => by
    rw [greedyFilterSpans]
    split
    · rename_i hcond
      apply greedyFilterSpans_pairwise rest (kept ++ [s])
      · exact fun x hx => hlen x (List.mem_cons_of_mem _ hx)
      · intro x hx
        rcases List.mem_append.mp hx with h | h
        · exact hklen x h
        · rw [List.mem_singleton.mp h]
          exact hlen s (List.mem_cons_self _ _)
      · exact (List.pairwise_cons.mp hsorted).2
      · intro a ha x hx
        rcases List.mem_append.mp ha with h | h
        · exact hkle a h x (List.mem_cons_of_mem _ hx)
        · rw [List.mem_singleton.mp h]
          exact (List.pairwise_cons.mp hsorted).1 x hx
      · rw [List.pairwise_append]
        refine ⟨hkpair, by simp, ?_⟩
        intro a ha b hb
        rw [List.mem_singleton.mp hb]
        exact not_intersect_of_endpoints_uncovered
          (hklen a ha) (hlen s (List.mem_cons_self _ _))
          (hkle a ha s (List.mem_cons_self _ _))
          (coveredTok_false hcond.1 a ha)
          (coveredTok_false hcond.2 a ha)
    · rename_i hcond
      apply greedyFilterSpans_pairwise rest kept
      · exact fun x hx => hlen x (List.mem_cons_of_mem _ hx)
      · exact hklen
      · exact (List.pairwise_cons.mp hsorted).2
      · exact fun a ha x hx => hkle a ha x (List.mem_cons_of_mem _ hx)
      · exact hkpair

/-- Helper: every pending candidate the greedy pass discards intersects a
span of the final result that precedes it in the sort order. -/
theorem greedyFilterSpans_beaten : ∀ (l kept : List TokenSpan) (c : TokenSpan),
    (∀ s ∈ l, 0 < spanLen s) →
    List.Pairwise (fun a b => spanSortLE a b = true) l →
    (∀ a ∈ kept, ∀ s ∈ l, spanSortLE a s = true) →
    c ∈ l → c ∉ greedyFilterSpans l kept →
    ∃ r ∈ greedyFilterSpans l kept, spansIntersect r c ∧ spanSortLE r c = true
  | [], _, c, _, _, _, hc, _ => absurd hc (List.not_mem_nil c)
  | s :: rest, kept, c, hlen, hsorted, hkle, hc, hnot => by
    by_cases hcond : coveredTok kept s.start = false ∧ coveredTok kept (s.stop - 1) = false
    · rw [greedyFilterSpans, if_pos hcond] at hnot ⊢
      rcases List.mem_cons.mp hc with hcs | hcrest
      · subst hcs
        exact absurd (greedyFilterSpans_kept_mem rest (kept ++ [c]) c (by simp)) hnot
      · apply greedyFilterSpans_beaten rest (kept ++ [s]) c
          (fun x hx => hlen x (List.mem_cons_of_mem _ hx))
          (List.pairwise_cons.mp hsorted).2 ?_ hcrest hnot
        intro a ha x hx
        rcases List.mem_append.mp ha with h | h
        · exact hkle a h x (List.mem_cons_of_mem _ hx)
        · rw [List.mem_singleton.mp h]
          exact (List.pairwise_cons.mp hsorted).1 x hx
    · rw [greedyFilterSpans, if_neg hcond] at hnot ⊢
      rcases List.mem_cons.mp hc with hcs | hcrest
      · subst hcs
        have hclen : 0 < spanLen c := hlen c (List.mem_cons_self _ _)
        have hcover : coveredTok kept c.start = true ∨ coveredTok kept (c.stop - 1) = true := by
          by_cases h1 : coveredTok kept c.start = true
          · exact Or.inl h1
          · by_cases h2 : coveredTok kept (c.stop - 1) = true
            · exact Or.inr h2
            · exact absurd ⟨by simpa using h1, by simpa using h2⟩ hcond
        have hkleC : ∀ a ∈ kept, spanSortLE a c = true :=
          fun a ha => hkle a ha c (List.mem_cons_self _ _)
        simp only [spanLen] at hclen
        rcases hcover with hcov | hcov
        · obtain ⟨a, ha, ha1, ha2⟩ := coveredTok_true hcov
          refine ⟨a, greedyFilterSpans_kept_mem rest kept a ha, ?_, hkleC a ha⟩
          rw [spansIntersect]
          omega
        · obtain ⟨a, ha, ha1, ha2⟩ := coveredTok_true hcov
          refine ⟨a, greedyFilterSpans_kept_mem rest kept a ha, ?_, hkleC a ha⟩
          rw [spansIntersect]
          omega
      · exact greedyFilterSpans_beaten rest kept c
          (fun x hx => hlen x (List.mem_cons_of_mem _ hx))
          (List.pairwise_cons.mp hsorted).2
          (fun a ha x hx => hkle a ha x (List.mem_cons_of_mem _ hx))
          hcrest hnot

/-- C7: after overlap resolution no two exposed spans of a tagger category
intersect, and every discarded candidate loses to a kept span that
intersects it and is longer, or of equal length with an earlier (or equal)
start. -/
theorem filter_spans_overlap_resolution (spans : List TokenSpan)
    (hlen : ∀ s ∈ spans, 0 < spanLen s) :
    List.Pairwise (fun a b => ¬ spansIntersect a b) (filter_spans spans) ∧
    ∀ c ∈ spans, c ∉ filter_spans spans →
      ∃ r ∈ filter_spans spans, spansIntersect r c ∧
        (spanLen c < spanLen r ∨ (spanLen r = spanLen c ∧ r.start ≤ c.start)) := by
  have hperm1 : (spans.mergeSort spanSortLE).Perm spans := List.mergeSort_perm spans spanSortLE
  have hsorted : List.Pairwise (fun a b => spanSortLE a b = true)
      (spans.mergeSort spanSortLE) :=
    List.sorted_mergeSort spanSortLE_trans spanSortLE_total spans
  have hlen' : ∀ s ∈ spans.mergeSort spanSortLE, 0 < spanLen s :=
    fun s hs => hlen s (hperm1.mem_iff.mp hs)
  have hG := greedyFilterSpans_pairwise (spans.mergeSort spanSortLE) [] hlen'
    (by simp) hsorted (by simp) (by simp)
  have hperm2 : (filter_spans spans).Perm
      (greedyFilterSpans (spans.mergeSort spanSortLE) []) := by
    rw [filter_spans]
    exact List.mergeSort_perm _ _
  constructor
  · exact hG.perm hperm2.symm (fun hx h2 => hx ⟨h2.2, h2.1⟩)
  · intro c hc hcnot
    have hcsorted : c ∈ spans.mergeSort spanSortLE := hperm1.mem_iff.mpr hc
    have hcnotG : c ∉ greedyFilterSpans (spans.mergeSort spanSortLE) [] :=
      fun hx => hcnot (hperm2.mem_iff.mpr hx)
    obtain ⟨r, hr, hri, hrle⟩ :=
      greedyFilterSpans_beaten _ [] c hlen' hsorted (by simp) hcsorted hcnotG
    refine ⟨r, hperm2.mem_iff.mpr hr, hri, ?_⟩
    simpa [spanSortLE, Bool.or_eq_true, Bool.and_eq_true, decide_eq_true_eq] using hrle

/-- Witness for C7 at a concrete input: two overlapping candidate spans of
positive length. -/
theorem filter_spans_overlap_resolution_witness :
    (∀ s ∈ [TokenSpan.mk 0 2, TokenSpan.mk 1 3], 0 < spanLen s) ∧
    (List.Pairwise (fun a b => ¬ spansIntersect a b)
        (filter_spans [TokenSpan.mk 0 2, TokenSpan.mk 1 3]) ∧
      ∀ c ∈ [TokenSpan.mk 0 2, TokenSpan.mk 1 3],
        c ∉ filter_spans [TokenSpan.mk 0 2, TokenSpan.mk 1 3] →
        ∃ r ∈ filter_spans [TokenSpan.mk 0 2, TokenSpan.mk 1 3],
          spansIntersect r c ∧ (spanLen c < spanLen r ∨
            (spanLen r = spanLen c ∧ r.start ≤ c.start))) :=
  ⟨by decide, filter_spans_overlap_resolution _ (by decide)⟩
